import Mathlib

/-!
Shallow embedding of the structural-segmentation core of the repository
(`src/source/main.py`, `src/source/p.py`) and of the downstream chunking
stage (`src/chunking/main.py`, `src/chunking/mainKR.py`).

Python strings are modelled as `List Char`; JSON dicts as structures.
Python's `str.strip` is modelled over the usual ASCII whitespace
characters, and the regex class `\d` (and `str.isdigit`) over the ASCII
digits `0`-`9`; every concrete input considered below uses only ASCII
digits and ASCII whitespace, where the two semantics agree.
-/

namespace X2emb

/-- Whitespace characters stripped by Python's `str.strip()` (ASCII part). -/
def pySpace (c : Char) : Bool :=
  c == ' ' || c == '\t' || c == '\n' || c == '\r' || c == '\x0b' || c == '\x0c'

/-- Python `str.strip()`: drop leading and trailing whitespace. -/
def strip (cs : List Char) : List Char :=
  ((cs.dropWhile pySpace).reverse.dropWhile pySpace).reverse

/-- Python's `sub in s` substring test. -/
def containsSub (pat : List Char) : List Char → Bool
  | [] => pat.isEmpty
  | c :: rest => pat.isPrefixOf (c :: rest) || containsSub pat rest

/-- Python `text.split("\n")`. -/
def splitOnNl : List Char → List (List Char)
  | [] => [[]]
  | c :: rest =>
    if c = '\n' then [] :: splitOnNl rest
    else
      match splitOnNl rest with
      | [] => [[c]]
      | l :: ls => (c :: l) :: ls

namespace SourceMain

/-- The closed set of valid higher-level enumerator glyphs (src/source/main.py:10-15).
The interpunct is deliberately absent. -/
def VALID_HIGHER_ENUMS : List Char :=
  ['①','②','③','④','⑤','⑥','⑦','⑧','⑨','⑩',
   '⑪','⑫','⑬','⑭','⑮','⑯','⑰','⑱','⑲','⑳',
   '㉑','㉒','㉓','㉔','㉕','㉖','㉗','㉘','㉙','㉚',
   '㉛','㉜','㉝','㉞','㉟']

/-- `is_higher_level_enum(s)` (src/source/main.py:34-40): the first character
is in `VALID_HIGHER_ENUMS`. -/
def is_higher_level_enum (cs : List Char) : Bool :=
  match cs with
  | [] => false
  | c :: _ => VALID_HIGHER_ENUMS.contains c

/-- `lower_level_pattern = re.compile(r"^\d+\.")` (src/source/main.py:95).
On success returns the matched digit run and the length of the whole match
(digits plus the dot). -/
def lower_level_match (cs : List Char) : Option (List Char × Nat) :=
  let ds := cs.takeWhile Char.isDigit
  if ds.isEmpty then none
  else
    match cs.drop ds.length with
    | '.' :: _ => some (ds, ds.length + 1)
    | _ => none

/-- Earliest index of a future enumerator inside a remainder, as computed at
src/source/main.py:180-196: the minimum over the first position where
`lower_level_pattern` matches and every position holding a glyph of
`VALID_HIGHER_ENUMS` is exactly the first position satisfying either test. -/
def splitIdx : List Char → Option Nat
  | [] => none
  | c :: rest =>
    if VALID_HIGHER_ENUMS.contains c || (lower_level_match (c :: rest)).isSome then some 0
    else (splitIdx rest).map (· + 1)

/-- A `lower_levels` entry (src/source/main.py:164-167). -/
structure LowerLevel where
  sublevel : List Char
  content : List Char
deriving DecidableEq, Repr

/-- A `higher_levels` entry (src/source/main.py:130-134). -/
structure HigherLevel where
  level : List Char
  content : List Char
  lower_levels : List LowerLevel
deriving DecidableEq, Repr

/-- A section dict (src/source/main.py:252-255): only a title and the
higher-level entries; there is no direct body-text field. -/
structure Section where
  title : List Char
  higher_levels : List HigherLevel
deriving DecidableEq, Repr

/-- The mutable parser state: `sections`, `current_section`,
`current_higher_level` (src/source/main.py:85-87). -/
structure ParseState where
  sections : List Section
  current_section : Option Section
  current_higher_level : Option HigherLevel
deriving DecidableEq, Repr

/-- The document dict returned by `parse_text_to_structure`
(src/source/main.py:272-276). -/
structure Document where
  id : List Char
  title : List Char
  sections : List Section
deriving DecidableEq, Repr

def untitled : List Char := "Untitled Section".data

def marker1 : List Char := "법제처".data
def marker2 : List Char := "국가법령정보센터".data

/-- `clean_unwanted_lines` (src/source/main.py:42-60): drop lines containing
either boilerplate marker, or consisting solely of digits after stripping. -/
def clean_unwanted_lines : List (List Char) → List (List Char)
  | [] => []
  | l :: rest =>
    if containsSub marker1 l || containsSub marker2 l then clean_unwanted_lines rest
    else if !(strip l).isEmpty && (strip l).all Char.isDigit then clean_unwanted_lines rest
    else l :: clean_unwanted_lines rest

/-- The optional `(?:의\d+)?` group shared by the two section-header
regexes: consumed only when `의` is followed by at least one digit; the
caller then requires an opening parenthesis, so when that fails the group
is dropped, exactly as the regex backtracks. -/
def uiSuffix (rest2 : List Char) : List Char × List Char :=
  match rest2 with
  | [] => ([], rest2)
  | c2 :: r2 =>
    if c2 = '의' then
      let ds2 := r2.takeWhile Char.isDigit
      if ds2.isEmpty then ([], rest2) else ('의' :: ds2, r2.drop ds2.length)
    else ([], rest2)

/-- `section_pattern = re.compile(r"^제(\d+조(?:의\d+)?)\((.*?)\)")`
(src/source/main.py:91).  On success returns group 1 (the article number),
group 2 (the title, i.e. the lazy run up to the first closing parenthesis)
and the end offset of the whole match. -/
def section_pattern_match (cs : List Char) : Option (List Char × List Char × Nat) :=
  match cs with
  | [] => none
  | c0 :: rest =>
    if c0 = '제' then
      let ds := rest.takeWhile Char.isDigit
      if ds.isEmpty then none
      else
        match rest.drop ds.length with
        | [] => none
        | c1 :: rest2 =>
          if c1 = '조' then
            let sufRest := uiSuffix rest2
            match sufRest.2 with
            | [] => none
            | c3 :: tr =>
              if c3 = '(' then
                let ttl := tr.takeWhile (fun c => c ≠ ')')
                if ttl.length = tr.length || ttl.contains '\n' then none
                else some (ds ++ '조' :: sufRest.1, ttl,
                  1 + ds.length + 1 + sufRest.1.length + 1 + ttl.length + 1)
              else none
          else none
    else none

/-- The section synthesized when content arrives with no open section
(src/source/main.py:144-148 and 213-217). -/
def ensureSection (st : ParseState) : ParseState :=
  if st.current_section.isNone then
    { st with current_section := some { title := untitled, higher_levels := [] } }
  else st

/-- Flush the open higher level into a section (src/source/main.py:116-118,
245-247, 267-268). -/
def flushHigher (hl : Option HigherLevel) (sec : Section) : Section :=
  match hl with
  | some h => { sec with higher_levels := sec.higher_levels ++ [h] }
  | none => sec

/-- Append free text to the last open lower level
(src/source/main.py:207). -/
def appendToLast (part : List Char) : List LowerLevel → List LowerLevel
  | [] => []
  | [l] => [{ l with content := l.content ++ ' ' :: part }]
  | l :: ls => l :: appendToLast part ls

/-- The body of the `while remainder_text:` loop of `process_remainder`
(src/source/main.py:110-232), written with explicit fuel so that every
concrete run evaluates by kernel reduction.  `processLoop_fuel_sufficient`
below shows the fuel never runs out when it is at least the remainder's
length, because every iteration strictly shrinks the remainder. -/
def processLoop : Nat → ParseState → List Char → ParseState
  | 0, st, _ => st
  | fuel + 1, st, r =>
    match r with
    | [] => st
    | c :: rest =>
      if is_higher_level_enum (c :: rest) then
        -- (A) close the open higher level into the open section, if both exist
        let st1 : ParseState :=
          match st.current_higher_level, st.current_section with
          | some h, some sec =>
            { st with
              current_section := some { sec with higher_levels := sec.higher_levels ++ [h] },
              current_higher_level := none }
          | _, _ => st
        let st2 := { st1 with
          current_higher_level := some { level := [c], content := [], lower_levels := [] } }
        processLoop fuel st2 (strip rest)
      else
        match lower_level_match (c :: rest) with
        | some (ds, off) =>
          -- (B) open a (possibly virtual) higher level and append a new lower level
          let st1 : ParseState :=
            if st.current_higher_level.isNone then
              { ensureSection st with
                current_higher_level := some { level := [], content := [], lower_levels := [] } }
            else st
          let st2 : ParseState :=
            match st1.current_higher_level with
            | some h =>
              { st1 with
                current_higher_level :=
                  some { h with lower_levels := h.lower_levels ++ [⟨ds, []⟩] } }
            | none => st1
          processLoop fuel st2 (strip ((c :: rest).drop off))
        | none =>
          -- (C) free text up to the next enumerator, if any
          let idx := splitIdx (c :: rest)
          let part := strip ((c :: rest).take (idx.getD (c :: rest).length))
          let st1 : ParseState :=
            match st.current_higher_level with
            | some h =>
              if h.lower_levels.isEmpty then
                { st with
                  current_higher_level := some { h with content := h.content ++ ' ' :: part } }
              else
                { st with
                  current_higher_level := some { h with lower_levels := appendToLast part h.lower_levels } }
            | none =>
              { ensureSection st with
                current_higher_level := some { level := [], content := part, lower_levels := [] } }
          match idx with
          | none => st1
          | some i => processLoop fuel st1 (strip ((c :: rest).drop i))

/-- `process_remainder` (src/source/main.py:97-232). -/
def process_remainder (st : ParseState) (r : List Char) : ParseState :=
  processLoop (strip r).length st (strip r)

/-- One iteration of the main line loop (src/source/main.py:235-264). -/
def process_line (st : ParseState) (rawLine : List Char) : ParseState :=
  let line := strip rawLine
  if line.isEmpty then st
  else
    match section_pattern_match line with
    | some g =>
      -- close the previously open section, flushing the open higher level into it
      let st1 : ParseState :=
        match st.current_section with
        | some sec =>
          { st with
            sections := st.sections ++ [flushHigher st.current_higher_level sec]
            current_section := none
            current_higher_level := none }
        | none => st
      let st2 := { st1 with
        current_section := some { title := strip (line.take g.2.2), higher_levels := [] } }
      let rem := line.drop g.2.2
      if rem.isEmpty then st2 else process_remainder st2 rem
    | none => process_remainder st line

def initState : ParseState := { sections := [], current_section := none, current_higher_level := none }

def runLines (lines : List (List Char)) : ParseState :=
  lines.foldl process_line initState

/-- End-of-input flushing (src/source/main.py:266-270). -/
def finalizeSections (st : ParseState) : List Section :=
  match st.current_section with
  | some sec => st.sections ++ [flushHigher st.current_higher_level sec]
  | none => st.sections

/-- `parse_text_to_structure` (src/source/main.py:62-276). -/
def parse_text_to_structure (text : List Char) (doc_id : Nat) (title : List Char) : Document :=
  { id := Nat.toDigits 10 doc_id,
    title := title,
    sections := finalizeSections (runLines (clean_unwanted_lines (splitOnNl text))) }

end SourceMain

namespace SourceP

/-- `SECTION_REGEX = re.compile(r"^제\s*(\d+조(?:의\d+)?)\s*\((.*?)\)\s*(.*)$")`
(src/source/p.py:100).  On success returns group 1 (the article number),
group 2 (the title) and group 3 (the trailing text).  `\s` is modelled by
`pySpace` and `\d` by the ASCII digits; the optional `의\d+` group is
dropped exactly when the regex would backtrack over it. -/
def SECTION_REGEX_match (cs : List Char) : Option (List Char × List Char × List Char) :=
  match cs with
  | [] => none
  | c0 :: rest0 =>
    if c0 = '제' then
      let rest := rest0.dropWhile pySpace
      let ds := rest.takeWhile Char.isDigit
      if ds.isEmpty then none
      else
        match rest.drop ds.length with
        | [] => none
        | c1 :: rest2 =>
          if c1 = '조' then
            let sufRest := SourceMain.uiSuffix rest2
            match sufRest.2.dropWhile pySpace with
            | [] => none
            | c3 :: tr =>
              if c3 = '(' then
                let ttl := tr.takeWhile (fun c => c ≠ ')')
                if ttl.length = tr.length || ttl.contains '\n' then none
                else some (ds ++ '조' :: sufRest.1, ttl,
                  (tr.drop (ttl.length + 1)).dropWhile pySpace)
              else none
          else none
    else none

end SourceP

/-- A paragraph item as consumed by the chunking stage; JSON keys read with
`.get(key, '')` are modelled as fields (an absent key is the empty string).
`item_text` is read by src/chunking/mainKR.py:22 and `item_text_en` by
src/chunking/main.py:19. -/
structure CItem where
  item_text : List Char
  item_text_en : List Char
deriving DecidableEq, Repr

/-- A paragraph as consumed by the chunking stage. -/
structure CParagraph where
  paragraph_symbol : List Char
  paragraph_text : List Char
  paragraph_text_en : List Char
  items : List CItem
deriving DecidableEq, Repr

/-- An article as consumed by the chunking stage. -/
structure CArticle where
  article_number : List Char
  article_title : List Char
  article_text : List Char
  article_text_en : List Char
  paragraphs : List CParagraph
deriving DecidableEq, Repr

/-- A document as consumed by the chunking stage. -/
structure CDocument where
  document_id : List Char
  document_title : List Char
  main_body : List CArticle
deriving DecidableEq, Repr

/-- An output chunk record (src/chunking/main.py:32-37, 78-83). -/
structure Chunk where
  chunk_id : List Char
  chunk_type : List Char
  metadata_text : List Char
  content : List Char
deriving DecidableEq, Repr

namespace Chunking

/-- `re.match(r"(\d+)", article_number)` with fallback to the whole string
(src/chunking/main.py:24-28). -/
def article_num_of (article_number : List Char) : List Char :=
  let ds := article_number.takeWhile Char.isDigit
  if ds.isEmpty then article_number else ds

/-- The paragraph number used in the chunk id (src/chunking/main.py:66-74):
the digit prefix of the symbol if any, else `str(ord(symbol) - 9311)` when
that string is all digits, else `"1"`.  The argument is the symbol's single
character (`ord` has already required length one). -/
def paragraph_num_of (c : Char) : List Char :=
  if c.isDigit then [c]
  else
    let s := (toString ((c.toNat : Int) - 9311)).data
    if !s.isEmpty && s.all Char.isDigit then s else ['1']

/-- The paragraph label in the metadata text (src/chunking/main.py:50-56):
`f"{ord(symbol) - 9311}항"` for the circled digits one to twenty, else the
default label. -/
def paragraph_label (c : Char) : List Char :=
  if 9312 ≤ c.toNat ∧ c.toNat ≤ 9331 then (toString (c.toNat - 9311)).data ++ ['항']
  else '1' :: ['항']

/-- `' '.join(item.get('item_text_en', '').strip() for item in items)`
(src/chunking/main.py:19, 61). -/
def items_text_en (items : List CItem) : List Char :=
  List.intercalate [' '] (items.map (fun it => strip it.item_text_en))

/-- The paragraph-level chunks of one article (src/chunking/main.py:40-83).
`none` models the `TypeError` raised by `ord(paragraph_symbol)` when the
symbol is not a single character. -/
def para_chunks (docid dtitle artnum : List Char) : List CParagraph → Option (List Chunk)
  | [] => some []
  | p :: ps =>
    match p.paragraph_symbol with
    | [c] =>
      let ch : Chunk :=
        { chunk_id := docid ++ '.' :: artnum ++ '.' :: paragraph_num_of c
          chunk_type := "paragraph".data
          metadata_text := '「' :: dtitle ++ '」' :: ' ' :: artnum ++ '조' :: paragraph_label c
          content := strip p.paragraph_text_en ++ ' ' :: items_text_en p.items }
      match para_chunks docid dtitle artnum ps with
      | some cs => some (ch :: cs)
      | none => none
    | _ => none

/-- The article-content accumulation loop (src/chunking/main.py:16-20). -/
def article_content_of (a : CArticle) : List Char :=
  a.paragraphs.foldl
    (fun acc p => acc ++ ' ' :: strip p.paragraph_text_en ++ ' ' :: items_text_en p.items)
    (strip a.article_text_en)

/-- The chunks of a list of articles (src/chunking/main.py:9-83). -/
def article_chunks (docid dtitle : List Char) : List CArticle → Option (List Chunk)
  | [] => some []
  | a :: rest =>
    let artnum := article_num_of a.article_number
    let artChunk : Chunk :=
      { chunk_id := docid ++ '.' :: artnum
        chunk_type := "article".data
        metadata_text :=
          '「' :: dtitle ++ '」' :: ' ' :: a.article_number ++ ' ' :: '(' :: a.article_title ++ [')']
        content := article_content_of a }
    match para_chunks docid dtitle artnum a.paragraphs with
    | some pcs =>
      match article_chunks docid dtitle rest with
      | some more => some (artChunk :: pcs ++ more)
      | none => none
    | none => none

/-- `generate_chunks` (src/chunking/main.py:4-85); `none` models the
exception raised at `ord(paragraph_symbol)` on a symbol that is not a
single character. -/
def generate_chunks : List CDocument → Option (List Chunk)
  | [] => some []
  | d :: ds =>
    match article_chunks d.document_id d.document_title d.main_body with
    | some cs =>
      match generate_chunks ds with
      | some more => some (cs ++ more)
      | none => none
    | none => none

end Chunking

namespace ChunkingKR

/-- `re.match(r"(\d+)", article_number)` with fallback
(src/chunking/mainKR.py:27-31). -/
def article_num_of (article_number : List Char) : List Char :=
  let ds := article_number.takeWhile Char.isDigit
  if ds.isEmpty then article_number else ds

/-- The paragraph number used in the chunk id (src/chunking/mainKR.py:64-71);
same computation as in the English variant. -/
def paragraph_num_of (c : Char) : List Char :=
  if c.isDigit then [c]
  else
    let s := (toString ((c.toNat : Int) - 9311)).data
    if !s.isEmpty && s.all Char.isDigit then s else ['1']

/-- The paragraph label in the metadata text (src/chunking/mainKR.py:48-54). -/
def paragraph_label (c : Char) : List Char :=
  if 9312 ≤ c.toNat ∧ c.toNat ≤ 9331 then (toString (c.toNat - 9311)).data ++ ['항']
  else '1' :: ['항']

/-- `' '.join(item.get('item_text', '').strip() for item in items)`
(src/chunking/mainKR.py:22, 59). -/
def items_text (items : List CItem) : List Char :=
  List.intercalate [' '] (items.map (fun it => strip it.item_text))

/-- The paragraph-level chunks of one article (src/chunking/mainKR.py:43-80);
unlike the English variant the content is stripped as a whole
(src/chunking/mainKR.py:60). -/
def para_chunks (docid dtitle artnum : List Char) : List CParagraph → Option (List Chunk)
  | [] => some []
  | p :: ps =>
    match p.paragraph_symbol with
    | [c] =>
      let ch : Chunk :=
        { chunk_id := docid ++ '.' :: artnum ++ '.' :: paragraph_num_of c
          chunk_type := "paragraph".data
          metadata_text := '「' :: dtitle ++ '」' :: ' ' :: artnum ++ '조' :: paragraph_label c
          content := strip (strip p.paragraph_text ++ ' ' :: items_text p.items) }
      match para_chunks docid dtitle artnum ps with
      | some cs => some (ch :: cs)
      | none => none
    | _ => none

/-- The article-content accumulation loop (src/chunking/mainKR.py:18-23). -/
def article_content_of (a : CArticle) : List Char :=
  a.paragraphs.foldl
    (fun acc p => acc ++ ' ' :: strip p.paragraph_text ++ ' ' :: items_text p.items)
    (strip a.article_text)

/-- The chunks of a list of articles (src/chunking/mainKR.py:11-80); the
article content is stripped before emission (src/chunking/mainKR.py:39). -/
def article_chunks (docid dtitle : List Char) : List CArticle → Option (List Chunk)
  | [] => some []
  | a :: rest =>
    let artnum := article_num_of a.article_number
    let artChunk : Chunk :=
      { chunk_id := docid ++ '.' :: artnum
        chunk_type := "article".data
        metadata_text :=
          '「' :: dtitle ++ '」' :: ' ' :: a.article_number ++ ' ' :: '(' :: a.article_title ++ [')']
        content := strip (article_content_of a) }
    match para_chunks docid dtitle artnum a.paragraphs with
    | some pcs =>
      match article_chunks docid dtitle rest with
      | some more => some (artChunk :: pcs ++ more)
      | none => none
    | none => none

/-- `generate_chunks` (src/chunking/mainKR.py:5-82); `none` models the
exception raised at `ord(paragraph_symbol)` on a symbol that is not a
single character. -/
def generate_chunks : List CDocument → Option (List Chunk)
  | [] => some []
  | d :: ds =>
    match article_chunks d.document_id d.document_title d.main_body with
    | some cs =>
      match generate_chunks ds with
      | some more => some (cs ++ more)
      | none => none
    | none => none

end ChunkingKR

/-! ## Helper lemmas -/

theorem strip_length_le (cs : List Char) : (strip cs).length ≤ cs.length := by
  unfold strip
  calc ((((cs.dropWhile pySpace).reverse).dropWhile pySpace).reverse).length
      = (((cs.dropWhile pySpace).reverse).dropWhile pySpace).length := List.length_reverse _
    _ ≤ ((cs.dropWhile pySpace).reverse).length := (List.dropWhile_sublist pySpace).length_le
    _ = (cs.dropWhile pySpace).length := List.length_reverse _
    _ ≤ cs.length := (List.dropWhile_sublist pySpace).length_le

theorem takeWhile_append_cons {p : Char → Bool} (l : List Char) (x : Char) (r : List Char)
    (hl : l.all p = true) (hx : p x = false) : (l ++ x :: r).takeWhile p = l := by
  induction l with
  | nil => simp [List.takeWhile_cons, hx]
  | cons a t ih =>
    simp only [List.all_cons, Bool.and_eq_true] at hl
    simp [List.takeWhile_cons, hl.1, ih hl.2]

theorem dropWhile_append_cons {p : Char → Bool} (l : List Char) (x : Char) (r : List Char)
    (hl : l.all p = true) (hx : p x = false) : (l ++ x :: r).dropWhile p = x :: r := by
  induction l with
  | nil => simp [List.dropWhile_cons, hx]
  | cons a t ih =>
    simp only [List.all_cons, Bool.and_eq_true] at hl
    simp [List.dropWhile_cons, hl.1, ih hl.2]

theorem splitOnNl_append (a b : List Char) (ha : '\n' ∉ a) :
    splitOnNl (a ++ '\n' :: b) = a :: splitOnNl b := by
  induction a with
  | nil => simp [splitOnNl]
  | cons c t ih =>
    have hcne : ¬ c = '\n' := fun h => ha (h ▸ List.mem_cons_self c t)
    have ht : '\n' ∉ t := fun h => ha (List.mem_cons_of_mem c h)
    have hstep : splitOnNl (c :: (t ++ '\n' :: b)) =
        (match splitOnNl (t ++ '\n' :: b) with
         | [] => [[c]]
         | l :: ls => (c :: l) :: ls) := by
      rw [show splitOnNl (c :: (t ++ '\n' :: b)) =
        (if c = '\n' then [] :: splitOnNl (t ++ '\n' :: b)
         else match splitOnNl (t ++ '\n' :: b) with
           | [] => [[c]]
           | l :: ls => (c :: l) :: ls) from rfl]
      rw [if_neg hcne]
    rw [List.cons_append, hstep, ih ht]

theorem digit_not_pySpace (c : Char) (h : c.isDigit = true) : pySpace c = false := by
  by_contra hs
  rw [Bool.not_eq_false] at hs
  unfold pySpace at hs
  simp only [Bool.or_eq_true, beq_iff_eq] at hs
  rcases hs with ((((rfl | rfl) | rfl) | rfl) | rfl) | rfl <;> exact absurd h (by decide)

theorem contains_eq_false {a : Char} {l : List Char} (h : a ∉ l) : l.contains a = false := by
  induction l with
  | nil => rfl
  | cons b t ih =>
    cases hab : (a == b) with
    | true => exact absurd (by rw [eq_of_beq hab]; exact List.mem_cons_self b t) h
    | false =>
      have hstep : (b :: t).contains a = t.contains a := by
        show List.elem a (b :: t) = List.elem a t
        simp [List.elem, hab]
      rw [hstep]
      exact ih (fun hm => h (List.mem_cons_of_mem b hm))

/-- The two drop conditions of `clean_unwanted_lines` as one predicate
(src/source/main.py:51 and 56). -/
def droppedLine (l : List Char) : Bool :=
  containsSub SourceMain.marker1 l || containsSub SourceMain.marker2 l ||
    (!(strip l).isEmpty && (strip l).all Char.isDigit)

theorem clean_unwanted_lines_eq_filter (ls : List (List Char)) :
    SourceMain.clean_unwanted_lines ls = ls.filter (fun l => !droppedLine l) := by
  induction ls with
  | nil => rfl
  | cons l t ih =>
    by_cases hm : (containsSub SourceMain.marker1 l || containsSub SourceMain.marker2 l) = true
    · have hd : droppedLine l = true := by simp [droppedLine] at hm ⊢; tauto
      simp [SourceMain.clean_unwanted_lines, hm, List.filter_cons, hd, ih]
    · have hm' : (containsSub SourceMain.marker1 l || containsSub SourceMain.marker2 l) = false :=
        Bool.not_eq_true _ ▸ (by simpa using hm)
      by_cases hd : (!(strip l).isEmpty && (strip l).all Char.isDigit) = true
      · have hdl : droppedLine l = true := by simp [droppedLine, hd]
        simp [SourceMain.clean_unwanted_lines, hm', hd, List.filter_cons, hdl, ih]
      · have hd' : (!(strip l).isEmpty && (strip l).all Char.isDigit) = false := by simpa using hd
        have hdl : droppedLine l = false := by
          simp [droppedLine] at hm' hd' ⊢; tauto
        simp [SourceMain.clean_unwanted_lines, hm', hd', List.filter_cons, hdl, ih]

namespace SourceMain

theorem lower_level_match_off {cs ds : List Char} {off : Nat}
    (h : lower_level_match cs = some (ds, off)) : off = ds.length + 1 := by
  simp only [lower_level_match] at h
  split at h
  · exact absurd h (by simp)
  · split at h
    · simp only [Option.some.injEq, Prod.mk.injEq] at h
      obtain ⟨h1, h2⟩ := h
      rw [h1] at h2
      omega
    · exact absurd h (by simp)

theorem splitIdx_cons_of_neg {c : Char} {rest : List Char}
    (henum : is_higher_level_enum (c :: rest) = false)
    (hlow : lower_level_match (c :: rest) = none) :
    splitIdx (c :: rest) = (splitIdx rest).map (· + 1) := by
  have hc : VALID_HIGHER_ENUMS.contains c = false := henum
  show (if (VALID_HIGHER_ENUMS.contains c || (lower_level_match (c :: rest)).isSome) = true
      then some 0 else (splitIdx rest).map (· + 1)) = (splitIdx rest).map (· + 1)
  rw [hc, hlow]
  rfl

theorem splitIdx_none_cons {c : Char} {rest : List Char}
    (h : splitIdx (c :: rest) = none) :
    is_higher_level_enum (c :: rest) = false ∧ lower_level_match (c :: rest) = none ∧
      splitIdx rest = none := by
  have hd : splitIdx (c :: rest) =
      (if (VALID_HIGHER_ENUMS.contains c || (lower_level_match (c :: rest)).isSome) = true
        then some 0 else (splitIdx rest).map (· + 1)) := rfl
  rw [hd] at h
  cases hc : VALID_HIGHER_ENUMS.contains c with
  | true => rw [hc] at h; simp at h
  | false =>
    cases hlow : lower_level_match (c :: rest) with
    | some v => rw [hc, hlow] at h; simp at h
    | none =>
      rw [hc, hlow] at h
      simp only [Option.isSome_none, Bool.or_false, if_neg (by decide : ¬ false = true)] at h
      exact ⟨hc, rfl, Option.map_eq_none.mp h⟩

/-- The fuel of `processLoop` never runs out: any fuel at least the length of
the remainder gives the same result, because every loop iteration strictly
shrinks the remainder (branch A drops the glyph, branch B drops the matched
enumerator, and in branch C the split index is never zero once branches A and
B have failed). -/
theorem processLoop_fuel_sufficient :
    ∀ fuel st r, r.length ≤ fuel → processLoop fuel st r = processLoop r.length st r := by
  intro fuel
  induction fuel using Nat.strong_induction_on with
  | _ fuel ih =>
    intro st r hle
    cases fuel with
    | zero =>
      have hr : r = [] := List.eq_nil_of_length_eq_zero (Nat.le_zero.mp hle)
      subst hr; rfl
    | succ f =>
      cases r with
      | nil => rfl
      | cons c rest =>
        have hfr : rest.length ≤ f := Nat.succ_le_succ_iff.mp hle
        have hlt1 : f < f + 1 := Nat.lt_succ_self f
        have hlt2 : rest.length < f + 1 := Nat.lt_succ_of_le hfr
        show processLoop (f + 1) st (c :: rest) = processLoop (rest.length + 1) st (c :: rest)
        simp only [processLoop]
        split
        · exact (ih f hlt1 _ _ (le_trans (strip_length_le rest) hfr)).trans
            ((ih rest.length hlt2 _ _ (strip_length_le rest)).symm)
        · rename_i henum
          split
          · rename_i ds off hlow
            have hoff : off = ds.length + 1 := lower_level_match_off hlow
            have hdl : (strip ((c :: rest).drop off)).length ≤ rest.length := by
              have h1 := strip_length_le ((c :: rest).drop off)
              have h2 : ((c :: rest).drop off).length = (c :: rest).length - off :=
                List.length_drop _ _
              simp only [List.length_cons] at h2
              omega
            exact (ih f hlt1 _ _ (le_trans hdl hfr)).trans
              ((ih rest.length hlt2 _ _ hdl).symm)
          · rename_i hlow
            have henum' : is_higher_level_enum (c :: rest) = false := by
              simpa using henum
            split
            · rfl
            · rename_i i hidx
              have hmap : splitIdx (c :: rest) = (splitIdx rest).map (· + 1) :=
                splitIdx_cons_of_neg henum' hlow
              rw [hmap] at hidx
              obtain ⟨j, hj, hji⟩ := Option.map_eq_some.mp hidx
              have hji' : j + 1 = i := hji
              have hi1 : 1 ≤ i := by omega
              have hdl : (strip ((c :: rest).drop i)).length ≤ rest.length := by
                have h1 := strip_length_le ((c :: rest).drop i)
                have h2 : ((c :: rest).drop i).length = (c :: rest).length - i :=
                  List.length_drop _ _
                simp only [List.length_cons] at h2
                omega
              exact (ih f hlt1 _ _ (le_trans hdl hfr)).trans
                ((ih rest.length hlt2 _ _ hdl).symm)

end SourceMain

/-! ## Concrete fixtures -/

/-- A one-paragraph fixture paragraph with the given symbol. -/
def symPara (sym : List Char) : CParagraph :=
  { paragraph_symbol := sym, paragraph_text := [], paragraph_text_en := [], items := [] }

/-- A one-paragraph fixture article with the given paragraph symbol. -/
def symArt (sym : List Char) : CArticle :=
  { article_number := '1' :: ['조'], article_title := ['t'], article_text := [],
    article_text_en := [], paragraphs := [symPara sym] }

/-- A one-article, one-paragraph fixture document with the given paragraph
symbol, used to exercise the chunking stage on a single symbol. -/
def symDoc (sym : List Char) : CDocument :=
  { document_id := ['1'], document_title := [], main_body := [symArt sym] }

/-! ## Lemmas on exception propagation in the chunking stage -/

theorem chunking_para_chunks_none (docid dtitle artnum : List Char) (ps : List CParagraph)
    (h : ∃ p ∈ ps, p.paragraph_symbol = []) :
    Chunking.para_chunks docid dtitle artnum ps = none := by
  induction ps with
  | nil => obtain ⟨p, hp, _⟩ := h; cases hp
  | cons q t ih =>
    obtain ⟨p, hp, hsym⟩ := h
    rcases List.mem_cons.mp hp with rfl | hmem
    · simp [Chunking.para_chunks, hsym]
    · have ht := ih ⟨p, hmem, hsym⟩
      rcases hq : q.paragraph_symbol with _ | ⟨c, _ | ⟨c2, cs⟩⟩ <;>
        simp [Chunking.para_chunks, hq, ht]

theorem chunking_article_chunks_none (docid dtitle : List Char) (arts : List CArticle)
    (h : ∃ a ∈ arts, ∃ p ∈ a.paragraphs, p.paragraph_symbol = []) :
    Chunking.article_chunks docid dtitle arts = none := by
  induction arts with
  | nil => obtain ⟨a, ha, _⟩ := h; cases ha
  | cons b t ih =>
    obtain ⟨a, ha, hpex⟩ := h
    rcases List.mem_cons.mp ha with rfl | hmem
    · have := chunking_para_chunks_none docid dtitle (Chunking.article_num_of a.article_number)
        a.paragraphs hpex
      simp [Chunking.article_chunks, this]
    · have ht := ih ⟨a, hmem, hpex⟩
      rcases hb : Chunking.para_chunks docid dtitle
          (Chunking.article_num_of b.article_number) b.paragraphs with _ | pcs <;>
        simp [Chunking.article_chunks, hb, ht]

theorem chunkingKR_para_chunks_none (docid dtitle artnum : List Char) (ps : List CParagraph)
    (h : ∃ p ∈ ps, p.paragraph_symbol = []) :
    ChunkingKR.para_chunks docid dtitle artnum ps = none := by
  induction ps with
  | nil => obtain ⟨p, hp, _⟩ := h; cases hp
  | cons q t ih =>
    obtain ⟨p, hp, hsym⟩ := h
    rcases List.mem_cons.mp hp with rfl | hmem
    · simp [ChunkingKR.para_chunks, hsym]
    · have ht := ih ⟨p, hmem, hsym⟩
      rcases hq : q.paragraph_symbol with _ | ⟨c, _ | ⟨c2, cs⟩⟩ <;>
        simp [ChunkingKR.para_chunks, hq, ht]

theorem chunkingKR_article_chunks_none (docid dtitle : List Char) (arts : List CArticle)
    (h : ∃ a ∈ arts, ∃ p ∈ a.paragraphs, p.paragraph_symbol = []) :
    ChunkingKR.article_chunks docid dtitle arts = none := by
  induction arts with
  | nil => obtain ⟨a, ha, _⟩ := h; cases ha
  | cons b t ih =>
    obtain ⟨a, ha, hpex⟩ := h
    rcases List.mem_cons.mp ha with rfl | hmem
    · have := chunkingKR_para_chunks_none docid dtitle (ChunkingKR.article_num_of a.article_number)
        a.paragraphs hpex
      simp [ChunkingKR.article_chunks, this]
    · have ht := ih ⟨a, hmem, hpex⟩
      rcases hb : ChunkingKR.para_chunks docid dtitle
          (ChunkingKR.article_num_of b.article_number) b.paragraphs with _ | pcs <;>
        simp [ChunkingKR.article_chunks, hb, ht]

/-! ## Lemmas on the section-header recognizers -/

theorem title_takeWhile (title rest : List Char) (ht : ')' ∉ title) :
    (title ++ ')' :: rest).takeWhile (fun c => c ≠ ')') = title := by
  apply takeWhile_append_cons
  · rw [List.all_eq_true]
    intro x hx
    simp only [decide_eq_true_eq]
    exact fun h => ht (h ▸ hx)
  · decide

theorem title_not_full (title rest : List Char) :
    ¬ title.length = (title ++ ')' :: rest).length := by
  intro h
  simp only [List.length_append, List.length_cons] at h
  omega

theorem drop_title (title rest : List Char) :
    (title ++ ')' :: rest).drop (title.length + 1) = rest := by
  rw [show title ++ ')' :: rest = (title ++ [')']) ++ rest from by simp]
  rw [show title.length + 1 = (title ++ [')']).length from by simp]
  exact List.drop_left _ _

theorem sectM_nosuffix (ds title rest : List Char) (hne : ds ≠ [])
    (hdig : ds.all Char.isDigit = true) (ht : ')' ∉ title) (hn : '\n' ∉ title) :
    SourceMain.section_pattern_match ('제' :: (ds ++ ('조' :: ('(' :: (title ++ (')' :: rest)))))) =
      some (ds ++ ['조'], title, ds.length + title.length + 4) := by
  obtain ⟨d, ds', rfl⟩ : ∃ d t, ds = d :: t := by
    cases ds with
    | nil => exact absurd rfl hne
    | cons d t => exact ⟨d, t, rfl⟩
  have hjo : Char.isDigit '조' = false := by decide
  have htw : ((d :: ds') ++ ('조' :: ('(' :: (title ++ (')' :: rest))))).takeWhile Char.isDigit =
      d :: ds' :=
    takeWhile_append_cons (d :: ds') '조' ('(' :: (title ++ (')' :: rest))) hdig hjo
  have hdr : ((d :: ds') ++ ('조' :: ('(' :: (title ++ (')' :: rest))))).drop
      (d :: ds').length = '조' :: ('(' :: (title ++ (')' :: rest))) :=
    List.drop_left (d :: ds') ('조' :: ('(' :: (title ++ (')' :: rest))))
  have httl := title_takeWhile title rest ht
  have hlen := title_not_full title rest
  have hcon : title.contains '\n' = false := contains_eq_false hn
  unfold SourceMain.section_pattern_match
  simp only [SourceMain.uiSuffix, htw, hdr, List.isEmpty_cons, Bool.false_eq_true, ite_false,
    reduceIte]
  simp only [if_neg (show ¬ (('(' : Char) = '의') from by decide)]
  simp only [if_pos (rfl : ('(' : Char) = '('), httl, hcon, hlen, decide_False, Bool.or_false,
    Bool.false_eq_true, ite_false, ite_true]
  simp only [Option.some.injEq, Prod.mk.injEq, List.length_cons, List.length_nil,
    eq_self_iff_true, true_and, and_true]
  omega

theorem sectM_suffix (ds ds2 title rest : List Char) (hne : ds ≠ [])
    (hdig : ds.all Char.isDigit = true) (hne2 : ds2 ≠ [])
    (hdig2 : ds2.all Char.isDigit = true) (ht : ')' ∉ title) (hn : '\n' ∉ title) :
    SourceMain.section_pattern_match
        ('제' :: (ds ++ ('조' :: ('의' :: (ds2 ++ ('(' :: (title ++ (')' :: rest)))))))) =
      some (ds ++ ('조' :: ('의' :: ds2)), title, ds.length + ds2.length + title.length + 5) := by
  obtain ⟨d, ds', rfl⟩ : ∃ d t, ds = d :: t := by
    cases ds with
    | nil => exact absurd rfl hne
    | cons d t => exact ⟨d, t, rfl⟩
  obtain ⟨e, es', rfl⟩ : ∃ e t, ds2 = e :: t := by
    cases ds2 with
    | nil => exact absurd rfl hne2
    | cons e t => exact ⟨e, t, rfl⟩
  have hjo : Char.isDigit '조' = false := by decide
  have hpo : Char.isDigit '(' = false := by decide
  have htw : ((d :: ds') ++
      ('조' :: ('의' :: ((e :: es') ++ ('(' :: (title ++ (')' :: rest))))))).takeWhile
      Char.isDigit = d :: ds' :=
    takeWhile_append_cons (d :: ds') '조'
      ('의' :: ((e :: es') ++ ('(' :: (title ++ (')' :: rest))))) hdig hjo
  have hdr : ((d :: ds') ++
      ('조' :: ('의' :: ((e :: es') ++ ('(' :: (title ++ (')' :: rest))))))).drop
      (d :: ds').length =
      '조' :: ('의' :: ((e :: es') ++ ('(' :: (title ++ (')' :: rest))))) :=
    List.drop_left (d :: ds')
      ('조' :: ('의' :: ((e :: es') ++ ('(' :: (title ++ (')' :: rest))))))
  have htw2 : ((e :: es') ++ ('(' :: (title ++ (')' :: rest)))).takeWhile Char.isDigit =
      e :: es' :=
    takeWhile_append_cons (e :: es') '(' (title ++ (')' :: rest)) hdig2 hpo
  have hdr2 : ((e :: es') ++ ('(' :: (title ++ (')' :: rest)))).drop (e :: es').length =
      '(' :: (title ++ (')' :: rest)) :=
    List.drop_left (e :: es') ('(' :: (title ++ (')' :: rest)))
  have httl := title_takeWhile title rest ht
  have hlen := title_not_full title rest
  have hcon : title.contains '\n' = false := contains_eq_false hn
  unfold SourceMain.section_pattern_match
  simp only [SourceMain.uiSuffix, htw, hdr, htw2, hdr2, List.isEmpty_cons, Bool.false_eq_true,
    ite_false, reduceIte]
  simp only [if_pos (rfl : ('(' : Char) = '('), httl, hcon, hlen, decide_False, Bool.or_false,
    Bool.false_eq_true, ite_false, ite_true]
  simp only [Option.some.injEq, Prod.mk.injEq, List.length_cons, List.length_nil,
    eq_self_iff_true, true_and, and_true]
  omega

theorem sectP_nosuffix (ws ds title rest : List Char) (hws : ws.all pySpace = true)
    (hne : ds ≠ []) (hdig : ds.all Char.isDigit = true) (ht : ')' ∉ title)
    (hn : '\n' ∉ title) :
    SourceP.SECTION_REGEX_match
        ('제' :: (ws ++ (ds ++ ('조' :: ('(' :: (title ++ (')' :: rest))))))) =
      some (ds ++ ['조'], title, rest.dropWhile pySpace) := by
  obtain ⟨d, ds', rfl⟩ : ∃ d t, ds = d :: t := by
    cases ds with
    | nil => exact absurd rfl hne
    | cons d t => exact ⟨d, t, rfl⟩
  have hd : d.isDigit = true := by
    simp only [List.all_cons, Bool.and_eq_true] at hdig
    exact hdig.1
  have hjo : Char.isDigit '조' = false := by decide
  have hwsd : (ws ++ ((d :: ds') ++ ('조' :: ('(' :: (title ++ (')' :: rest)))))).dropWhile
      pySpace = (d :: ds') ++ ('조' :: ('(' :: (title ++ (')' :: rest)))) :=
    dropWhile_append_cons ws d (ds' ++ ('조' :: ('(' :: (title ++ (')' :: rest)))))
      hws (digit_not_pySpace d hd)
  have htw : ((d :: ds') ++ ('조' :: ('(' :: (title ++ (')' :: rest))))).takeWhile Char.isDigit =
      d :: ds' :=
    takeWhile_append_cons (d :: ds') '조' ('(' :: (title ++ (')' :: rest))) hdig hjo
  have hdr : ((d :: ds') ++ ('조' :: ('(' :: (title ++ (')' :: rest))))).drop
      (d :: ds').length = '조' :: ('(' :: (title ++ (')' :: rest))) :=
    List.drop_left (d :: ds') ('조' :: ('(' :: (title ++ (')' :: rest))))
  have httl := title_takeWhile title rest ht
  have hlen := title_not_full title rest
  have hcon : title.contains '\n' = false := contains_eq_false hn
  have hdt := drop_title title rest
  have hop : pySpace '(' = false := by decide
  unfold SourceP.SECTION_REGEX_match
  simp only [SourceMain.uiSuffix, hwsd, htw, hdr, List.isEmpty_cons, Bool.false_eq_true,
    ite_false, reduceIte]
  simp only [if_neg (show ¬ (('(' : Char) = '의') from by decide)]
  simp only [if_pos (rfl : ('(' : Char) = '('), List.dropWhile_cons, hop, httl, hcon, hlen,
    decide_False, Bool.or_false, Bool.false_eq_true, ite_false, ite_true, hdt]

theorem sectP_suffix (ws ds ds2 title rest : List Char) (hws : ws.all pySpace = true)
    (hne : ds ≠ []) (hdig : ds.all Char.isDigit = true) (hne2 : ds2 ≠ [])
    (hdig2 : ds2.all Char.isDigit = true) (ht : ')' ∉ title) (hn : '\n' ∉ title) :
    SourceP.SECTION_REGEX_match
        ('제' :: (ws ++ (ds ++ ('조' :: ('의' :: (ds2 ++ ('(' :: (title ++ (')' :: rest))))))))) =
      some (ds ++ ('조' :: ('의' :: ds2)), title, rest.dropWhile pySpace) := by
  obtain ⟨d, ds', rfl⟩ : ∃ d t, ds = d :: t := by
    cases ds with
    | nil => exact absurd rfl hne
    | cons d t => exact ⟨d, t, rfl⟩
  obtain ⟨e, es', rfl⟩ : ∃ e t, ds2 = e :: t := by
    cases ds2 with
    | nil => exact absurd rfl hne2
    | cons e t => exact ⟨e, t, rfl⟩
  have hd : d.isDigit = true := by
    simp only [List.all_cons, Bool.and_eq_true] at hdig
    exact hdig.1
  have hjo : Char.isDigit '조' = false := by decide
  have hpo : Char.isDigit '(' = false := by decide
  have hwsd : (ws ++ ((d :: ds') ++
      ('조' :: ('의' :: ((e :: es') ++ ('(' :: (title ++ (')' :: rest)))))))).dropWhile
      pySpace =
      (d :: ds') ++ ('조' :: ('의' :: ((e :: es') ++ ('(' :: (title ++ (')' :: rest)))))) :=
    dropWhile_append_cons ws d
      (ds' ++ ('조' :: ('의' :: ((e :: es') ++ ('(' :: (title ++ (')' :: rest)))))))
      hws (digit_not_pySpace d hd)
  have htw : ((d :: ds') ++
      ('조' :: ('의' :: ((e :: es') ++ ('(' :: (title ++ (')' :: rest))))))).takeWhile
      Char.isDigit = d :: ds' :=
    takeWhile_append_cons (d :: ds') '조'
      ('의' :: ((e :: es') ++ ('(' :: (title ++ (')' :: rest))))) hdig hjo
  have hdr : ((d :: ds') ++
      ('조' :: ('의' :: ((e :: es') ++ ('(' :: (title ++ (')' :: rest))))))).drop
      (d :: ds').length =
      '조' :: ('의' :: ((e :: es') ++ ('(' :: (title ++ (')' :: rest))))) :=
    List.drop_left (d :: ds')
      ('조' :: ('의' :: ((e :: es') ++ ('(' :: (title ++ (')' :: rest))))))
  have htw2 : ((e :: es') ++ ('(' :: (title ++ (')' :: rest)))).takeWhile Char.isDigit =
      e :: es' :=
    takeWhile_append_cons (e :: es') '(' (title ++ (')' :: rest)) hdig2 hpo
  have hdr2 : ((e :: es') ++ ('(' :: (title ++ (')' :: rest)))).drop (e :: es').length =
      '(' :: (title ++ (')' :: rest)) :=
    List.drop_left (e :: es') ('(' :: (title ++ (')' :: rest)))
  have httl := title_takeWhile title rest ht
  have hlen := title_not_full title rest
  have hcon : title.contains '\n' = false := contains_eq_false hn
  have hdt := drop_title title rest
  have hop : pySpace '(' = false := by decide
  unfold SourceP.SECTION_REGEX_match
  simp only [SourceMain.uiSuffix, hwsd, htw, hdr, htw2, hdr2, List.isEmpty_cons,
    Bool.false_eq_true, ite_false, reduceIte]
  simp only [if_pos (rfl : ('(' : Char) = '('), List.dropWhile_cons, hop, httl, hcon, hlen,
    decide_False, Bool.or_false, Bool.false_eq_true, ite_false, ite_true, hdt]

/-! ## Claim theorems -/

/-- C10: `parse_text_to_structure` is deterministic — two invocations with
equal text, document id and title arguments return structurally equal
documents; the embedding is a pure function of exactly these arguments and
the constant glyph table. -/
theorem c10_parse_deterministic (t1 t2 : List Char) (d1 d2 : Nat) (ti1 ti2 : List Char)
    (ht : t1 = t2) (hd : d1 = d2) (hti : ti1 = ti2) :
    SourceMain.parse_text_to_structure t1 d1 ti1 = SourceMain.parse_text_to_structure t2 d2 ti2 := by
  subst ht; subst hd; subst hti; rfl

/-- Witness for C10 at a concrete input. -/
theorem c10_parse_deterministic_witness :
    SourceMain.parse_text_to_structure ['a'] 1 [] = SourceMain.parse_text_to_structure ['a'] 1 [] :=
  c10_parse_deterministic ['a'] ['a'] 1 1 [] [] rfl rfl rfl

/-- C9: `generate_chunks` (both the English and the Korean variant) fails
with an exception — modelled as `none` — on every document tree that
contains a virtual Paragraph, i.e. one whose `paragraph_symbol` is the
empty string, because `ord(paragraph_symbol)` requires a single character;
so `generate_chunks` is not total over trees with virtual paragraphs. -/
theorem c9_generate_chunks_raises_on_virtual (docs : List CDocument) (d : CDocument)
    (a : CArticle) (p : CParagraph) (hd : d ∈ docs) (ha : a ∈ d.main_body)
    (hp : p ∈ a.paragraphs) (hsym : p.paragraph_symbol = []) :
    Chunking.generate_chunks docs = none ∧ ChunkingKR.generate_chunks docs = none := by
  induction docs with
  | nil => cases hd
  | cons e t ih =>
    rcases List.mem_cons.mp hd with rfl | hmem
    · constructor
      · have := chunking_article_chunks_none d.document_id d.document_title d.main_body
          ⟨a, ha, p, hp, hsym⟩
        simp [Chunking.generate_chunks, this]
      · have := chunkingKR_article_chunks_none d.document_id d.document_title d.main_body
          ⟨a, ha, p, hp, hsym⟩
        simp [ChunkingKR.generate_chunks, this]
    · obtain ⟨h1, h2⟩ := ih hmem
      constructor
      · rcases he : Chunking.article_chunks e.document_id e.document_title e.main_body with _ | cs <;>
          simp [Chunking.generate_chunks, he, h1]
      · rcases he : ChunkingKR.article_chunks e.document_id e.document_title e.main_body with _ | cs <;>
          simp [ChunkingKR.generate_chunks, he, h2]

/-- Witness for C9 at a concrete one-virtual-paragraph document. -/
theorem c9_generate_chunks_raises_on_virtual_witness :
    Chunking.generate_chunks [symDoc []] = none ∧ ChunkingKR.generate_chunks [symDoc []] = none :=
  c9_generate_chunks_raises_on_virtual [symDoc []] (symDoc []) (symArt []) (symPara [])
    (by simp) (by simp [symDoc]) (by simp [symArt]) rfl

/-- C6: `parse_text_to_structure` is total.  The fuel of the inner loop is
irrelevant once it reaches the remainder's length (the loop strictly
shrinks its remainder on every iteration, so it terminates), the parser
always returns a document with the given id and title, and the empty input
yields an empty section list. -/
theorem c6_parser_total :
    (∀ fuel st r, r.length ≤ fuel →
        SourceMain.processLoop fuel st r = SourceMain.processLoop r.length st r) ∧
    (∀ text doc_id title, SourceMain.parse_text_to_structure text doc_id title =
        { id := Nat.toDigits 10 doc_id, title := title,
          sections := SourceMain.finalizeSections (SourceMain.runLines
            (SourceMain.clean_unwanted_lines (splitOnNl text))) }) ∧
    (SourceMain.parse_text_to_structure [] 0 []).sections = [] :=
  ⟨SourceMain.processLoop_fuel_sufficient, fun _ _ _ => rfl, by decide⟩

/-- Witness for C6 at a concrete fuel and remainder. -/
theorem c6_parser_total_witness :
    SourceMain.processLoop 5 SourceMain.initState ['a', 'b'] =
      SourceMain.processLoop 2 SourceMain.initState ['a', 'b'] :=
  c6_parser_total.1 5 SourceMain.initState ['a', 'b'] (by decide)

/-- C2 counterexample: on the single line `①text` the parser opens a
Paragraph (higher level) with symbol `①`, but since no section was ever
opened the final flush drops it — the returned structure has no sections at
all, so the still-open Paragraph does not appear in the output. -/
theorem c2_counterexample :
    (SourceMain.runLines (SourceMain.clean_unwanted_lines
        (splitOnNl ('①' :: "text".data)))).current_higher_level =
      some { level := ['①'], content := ' ' :: "text".data, lower_levels := [] } ∧
    (SourceMain.parse_text_to_structure ('①' :: "text".data) 1 []).sections = [] :=
  ⟨by decide, by decide⟩

/-- C2 (amended): at end of input, every still-open node is flushed into its
parent and the final section into the output, provided a section is open;
a Paragraph opened by a circled-glyph line before any section exists is
silently dropped instead. -/
theorem c2_end_flush_amended (text : List Char) (doc_id : Nat) (title : List Char)
    (sec : SourceMain.Section)
    (hsec : (SourceMain.runLines (SourceMain.clean_unwanted_lines
        (splitOnNl text))).current_section = some sec) :
    (SourceMain.parse_text_to_structure text doc_id title).sections =
      (SourceMain.runLines (SourceMain.clean_unwanted_lines (splitOnNl text))).sections ++
        [SourceMain.flushHigher (SourceMain.runLines (SourceMain.clean_unwanted_lines
          (splitOnNl text))).current_higher_level sec] := by
  simp [SourceMain.parse_text_to_structure, SourceMain.finalizeSections, hsec]

/-- Witness for C2 (amended) at a concrete input with an open section. -/
theorem c2_end_flush_amended_witness :
    (SourceMain.runLines (SourceMain.clean_unwanted_lines
        (splitOnNl "제1조(t)①x".data))).current_section =
      some { title := "제1조(t)".data, higher_levels := [] } ∧
    (SourceMain.parse_text_to_structure "제1조(t)①x".data 1 []).sections =
      (SourceMain.runLines (SourceMain.clean_unwanted_lines (splitOnNl "제1조(t)①x".data))).sections ++
        [SourceMain.flushHigher (SourceMain.runLines (SourceMain.clean_unwanted_lines
          (splitOnNl "제1조(t)①x".data))).current_higher_level
          { title := "제1조(t)".data, higher_levels := [] }] :=
  ⟨by decide, c2_end_flush_amended "제1조(t)①x".data 1 []
    { title := "제1조(t)".data, higher_levels := [] } (by decide)⟩

/-- C1 counterexample: `㉑` is the glyph at 1-based position 21 of the
35-glyph set, yet for a document whose single paragraph carries it both
chunkers emit the paragraph chunk id `1.1.3570` (the glyph's code point
minus 9311), not `1.1.21`; so the mapping used in chunk ids is not the
1-based enumeration position and is not onto 1–35. -/
theorem c1_counterexample :
    SourceMain.VALID_HIGHER_ENUMS.indexOf '㉑' = 20 ∧
    (Chunking.generate_chunks [symDoc ['㉑']]).map (fun cs => cs.map (fun ch => ch.chunk_id)) =
      some ["1.1".data, "1.1.3570".data] ∧
    (ChunkingKR.generate_chunks [symDoc ['㉑']]).map (fun cs => cs.map (fun ch => ch.chunk_id)) =
      some ["1.1".data, "1.1.3570".data] ∧
    "1.1.3570".data ≠ "1.1.21".data :=
  ⟨by decide, by decide, by decide, by decide⟩

/-- C1 (amended): the per-glyph number used in paragraph chunk ids equals
the 1-based enumeration position only for the first twenty glyphs `①`–`⑳`;
for `㉑`–`㉟` it is the glyph's code point minus 9311, i.e. 3570–3584.  The
mapping is injective on the 35-glyph set but not onto 1–35, and for every
glyph the paragraph chunk id emitted by `generate_chunks` is
`{document_id}.{article_number_digits}.{that number}`. -/
theorem c1_glyph_ordinal_map :
    SourceMain.VALID_HIGHER_ENUMS.map Chunking.paragraph_num_of =
      [['1'], ['2'], ['3'], ['4'], ['5'], ['6'], ['7'], ['8'], ['9'], ['1', '0'],
       ['1', '1'], ['1', '2'], ['1', '3'], ['1', '4'], ['1', '5'], ['1', '6'], ['1', '7'],
       ['1', '8'], ['1', '9'], ['2', '0'],
       ['3', '5', '7', '0'], ['3', '5', '7', '1'], ['3', '5', '7', '2'], ['3', '5', '7', '3'],
       ['3', '5', '7', '4'], ['3', '5', '7', '5'], ['3', '5', '7', '6'], ['3', '5', '7', '7'],
       ['3', '5', '7', '8'], ['3', '5', '7', '9'], ['3', '5', '8', '0'], ['3', '5', '8', '1'],
       ['3', '5', '8', '2'], ['3', '5', '8', '3'], ['3', '5', '8', '4']] ∧
    SourceMain.VALID_HIGHER_ENUMS.map ChunkingKR.paragraph_num_of =
      SourceMain.VALID_HIGHER_ENUMS.map Chunking.paragraph_num_of ∧
    (SourceMain.VALID_HIGHER_ENUMS.map Chunking.paragraph_num_of).Nodup ∧
    (∀ g ∈ SourceMain.VALID_HIGHER_ENUMS,
      (Chunking.generate_chunks [symDoc [g]]).map (fun cs => cs.map (fun ch => ch.chunk_id)) =
        some ["1.1".data, '1' :: '.' :: '1' :: '.' :: Chunking.paragraph_num_of g]) :=
  ⟨by decide, by decide, by decide, by decide⟩

/-- Witness for C1 (amended) at the first glyph. -/
theorem c1_glyph_ordinal_map_witness :
    (Chunking.generate_chunks [symDoc ['①']]).map (fun cs => cs.map (fun ch => ch.chunk_id)) =
      some ["1.1".data, '1' :: '.' :: '1' :: '.' :: Chunking.paragraph_num_of '①'] :=
  c1_glyph_ordinal_map.2.2.2 '①' (by decide)

/-- C7 counterexample: for the single line `①text` the parser returns no
sections at all (the opened paragraph is dropped at end of input because no
section was open), rather than exactly one Paragraph with symbol `①` and
body `text`. -/
theorem c7_counterexample :
    (SourceMain.parse_text_to_structure ('①' :: "text".data) 1 []).sections = [] ∧
    [] ≠ [SourceMain.Section.mk "Untitled Section".data
      [{ level := ['①'], content := "text".data, lower_levels := [] }]] :=
  ⟨by decide, by decide⟩

/-- C7 (amended): for every glyph of the 35-glyph set, the line
`<glyph>text` opens exactly one Paragraph with symbol that glyph and
accumulated body `" text"` (free text joins with a space prefix), which
survives into the output provided an article header line precedes it;
with no preceding header the paragraph is dropped at end of input.  A line
starting with the interpunct `ㆍ` is never classified as Level 1. -/
theorem c7_closed_set_amended :
    (∀ g ∈ SourceMain.VALID_HIGHER_ENUMS,
      (SourceMain.parse_text_to_structure ("제1조(t)".data ++ '\n' :: g :: "text".data)
          1 []).sections =
        [{ title := "제1조(t)".data,
           higher_levels := [{ level := [g], content := ' ' :: "text".data,
                               lower_levels := [] }] }]) ∧
    SourceMain.is_higher_level_enum ('ㆍ' :: "text".data) = false ∧
    'ㆍ' ∉ SourceMain.VALID_HIGHER_ENUMS :=
  ⟨by decide, by decide, by decide⟩

/-- Witness for C7 (amended) at the first glyph. -/
theorem c7_closed_set_amended_witness :
    (SourceMain.parse_text_to_structure ("제1조(t)".data ++ '\n' :: '①' :: "text".data)
        1 []).sections =
      [{ title := "제1조(t)".data,
         higher_levels := [{ level := ['①'], content := ' ' :: "text".data,
                             lower_levels := [] }] }] :=
  c7_closed_set_amended.1 '①' (by decide)

/-- C3 counterexample: parsing the single line `1. foo` does synthesize a
virtual (empty-symbol) Paragraph holding one Item with symbol `1`, but the
item's text is `" foo"` — free text is appended with a space prefix and
never trimmed — not `"foo"` as the claim states. -/
theorem c3_counterexample :
    (SourceMain.parse_text_to_structure "1. foo".data 7 []).sections =
      [⟨SourceMain.untitled, [⟨[], [], [⟨['1'], ' ' :: "foo".data⟩]⟩]⟩] ∧
    (' ' :: "foo".data) ≠ "foo".data :=
  ⟨by decide, by decide⟩

/-- C3 (amended): whenever a Level-2 enumerator matches while no Paragraph
is open, an empty-symbol Paragraph is synthesized (together with an
`Untitled Section` if no section is open) and the new Item is opened under
it with the matched number and empty initial text; the remainder is then
re-parsed, free text being appended with a single space prefix.  In
particular `1. foo` yields one virtual Paragraph holding one Item with
symbol `1` and text `" foo"`. -/
theorem c3_virtual_paragraph_amended :
    ((SourceMain.parse_text_to_structure "1. foo".data 7 []).sections =
      [⟨SourceMain.untitled, [⟨[], [], [⟨['1'], ' ' :: "foo".data⟩]⟩]⟩]) ∧
    (∀ (st : SourceMain.ParseState) (r ds : List Char) (off : Nat),
      st.current_higher_level = none →
      SourceMain.is_higher_level_enum r = false →
      SourceMain.lower_level_match r = some (ds, off) →
      strip r = r →
      SourceMain.process_remainder st r =
        SourceMain.process_remainder
          { sections := st.sections,
            current_section := some (st.current_section.getD ⟨SourceMain.untitled, []⟩),
            current_higher_level := some ⟨[], [], [⟨ds, []⟩]⟩ }
          (r.drop off)) := by
  refine ⟨by decide, ?_⟩
  intro st r ds off hhl henum hlow hstrip
  cases r with
  | nil =>
    rw [show SourceMain.lower_level_match [] = none from rfl] at hlow
    exact Option.noConfusion hlow
  | cons c rest =>
    have hoff : off = ds.length + 1 := SourceMain.lower_level_match_off hlow
    unfold SourceMain.process_remainder
    rw [hstrip]
    have hlen : (strip ((c :: rest).drop off)).length ≤ rest.length := by
      have h1 := strip_length_le ((c :: rest).drop off)
      have h2 : ((c :: rest).drop off).length = (c :: rest).length - off := List.length_drop _ _
      simp only [List.length_cons] at h2
      omega
    cases hcs : st.current_section with
    | none =>
      simp only [List.length_cons, SourceMain.processLoop, henum, Bool.false_eq_true,
        if_false, hlow, hhl, Option.isNone_none, if_true, SourceMain.ensureSection, hcs,
        Option.getD]
      exact SourceMain.processLoop_fuel_sufficient rest.length _ _ hlen
    | some s =>
      simp only [List.length_cons, SourceMain.processLoop, henum, Bool.false_eq_true,
        if_false, hlow, hhl, Option.isNone_none, if_true, SourceMain.ensureSection, hcs,
        Option.isNone_some, Bool.false_eq_true, Option.getD]
      exact SourceMain.processLoop_fuel_sufficient rest.length _ _ hlen

/-- Witness for C3 (amended): the Level-2 step at the concrete remainder
`1. foo` from the initial state. -/
theorem c3_virtual_paragraph_amended_witness :
    SourceMain.process_remainder SourceMain.initState "1. foo".data =
      SourceMain.process_remainder
        { sections := [], current_section := some ⟨SourceMain.untitled, []⟩,
          current_higher_level := some ⟨[], [], [⟨['1'], []⟩]⟩ }
        ("1. foo".data.drop 2) :=
  c3_virtual_paragraph_amended.2 SourceMain.initState "1. foo".data ['1'] 2
    rfl (by decide) (by decide) (by decide)

/-- C5 counterexample: for the article line `제1조(t)` followed by the free
line `foo`, the parser attaches `foo` as the content of a synthesized
empty-symbol higher level under the section — the section record has no
direct body-text field at all — contradicting the claim that the text
becomes the Article's direct body text and is not attached to a synthesized
child node. -/
theorem c5_counterexample :
    (SourceMain.parse_text_to_structure "제1조(t)\nfoo".data 1 []).sections =
      [{ title := "제1조(t)".data,
         higher_levels := [{ level := [], content := "foo".data, lower_levels := [] }] }] :=
  by decide

/-- C5 (amended): a free-text line processed while a section is open but no
higher level is open becomes the content of a newly synthesized
empty-symbol higher level (virtual paragraph) under that section — the
section record has no direct body-text field; and a further free-text line
extends the content of the open higher level with a space prefix. -/
theorem c5_free_text_amended :
    (∀ (st : SourceMain.ParseState) (l : List Char) (sec : SourceMain.Section),
      st.current_section = some sec →
      st.current_higher_level = none →
      strip l = l → l ≠ [] →
      SourceMain.section_pattern_match l = none →
      SourceMain.splitIdx l = none →
      SourceMain.process_line st l =
        { st with current_higher_level := some ⟨[], l, []⟩ }) ∧
    (∀ (st : SourceMain.ParseState) (l : List Char) (h : SourceMain.HigherLevel),
      st.current_higher_level = some h →
      h.lower_levels = [] →
      strip l = l → l ≠ [] →
      SourceMain.section_pattern_match l = none →
      SourceMain.splitIdx l = none →
      SourceMain.process_line st l =
        { st with current_higher_level := some { h with content := h.content ++ ' ' :: l } }) := by
  constructor
  · intro st l sec hsec hhl hstrip hne hsecm hsplit
    cases l with
    | nil => exact absurd rfl hne
    | cons c rest =>
      obtain ⟨henum, hlow, -⟩ := SourceMain.splitIdx_none_cons hsplit
      unfold SourceMain.process_line
      rw [hstrip]
      simp only [List.isEmpty_cons, hsecm]
      unfold SourceMain.process_remainder
      rw [hstrip]
      simp only [List.length_cons, SourceMain.processLoop, henum, Bool.false_eq_true, if_false,
        hlow, hsplit, hhl, Option.getD, SourceMain.ensureSection, hsec,
        Option.isNone_some, Bool.false_eq_true]
      simp [List.take_succ_cons, List.take_length, hstrip]
  · intro st l h hhl hlower hstrip hne hsecm hsplit
    cases l with
    | nil => exact absurd rfl hne
    | cons c rest =>
      obtain ⟨henum, hlow, -⟩ := SourceMain.splitIdx_none_cons hsplit
      unfold SourceMain.process_line
      rw [hstrip]
      simp only [List.isEmpty_cons, hsecm]
      unfold SourceMain.process_remainder
      rw [hstrip]
      simp only [List.length_cons, SourceMain.processLoop, henum, Bool.false_eq_true, if_false,
        hlow, hsplit, hhl, Option.getD, hlower, List.isEmpty_nil]
      simp [List.take_succ_cons, List.take_length, hstrip]

/-- Witness for C5 (amended): the free line `foo` under an open section. -/
theorem c5_free_text_amended_witness :
    SourceMain.process_line
        { sections := [], current_section := some ⟨"제1조(t)".data, []⟩,
          current_higher_level := none } "foo".data =
      { sections := [], current_section := some ⟨"제1조(t)".data, []⟩,
        current_higher_level := some ⟨[], "foo".data, []⟩ } :=
  c5_free_text_amended.1
    { sections := [], current_section := some ⟨"제1조(t)".data, []⟩, current_higher_level := none }
    "foo".data ⟨"제1조(t)".data, []⟩ rfl rfl (by decide) (by decide) (by decide) (by decide)

/-- C4 counterexample: the multiply-amended header `제6조의2의3(제목)` is
recognized by neither revision's pattern (the sub-numbering suffix is
optional but not repeatable), and `main.py`'s pattern additionally rejects
whitespace after the article marker, which `p.py`'s accepts. -/
theorem c4_counterexample :
    SourceMain.section_pattern_match "제6조의2의3(제목)".data = none ∧
    SourceP.SECTION_REGEX_match "제6조의2의3(제목)".data = none ∧
    SourceP.SECTION_REGEX_match "제6조의2(제목)".data = some ("6조의2".data, "제목".data, []) ∧
    SourceMain.section_pattern_match "제 6조(제목)".data = none ∧
    SourceP.SECTION_REGEX_match "제 6조(제목)".data = some ("6조".data, "제목".data, []) :=
  ⟨by decide, by decide, by decide, by decide, by decide⟩

/-- C4 (amended): both section-header recognizers match the article marker
glyph, one or more digits, the article-suffix glyph, AT MOST ONE optional
sub-numbering suffix (`의` plus digits), then a parenthesized title, and
return the extracted number and title; `p.py`'s `SECTION_REGEX` also allows
whitespace after the marker while `main.py`'s `section_pattern` does not,
and neither accepts a repeated suffix such as `제6조의2의3`. -/
theorem c4_section_header_amended :
    (∀ ws ds title rest : List Char, ws.all pySpace = true → ds ≠ [] →
      ds.all Char.isDigit = true → ')' ∉ title → '\n' ∉ title →
      SourceP.SECTION_REGEX_match
          ('제' :: (ws ++ (ds ++ ('조' :: ('(' :: (title ++ (')' :: rest))))))) =
        some (ds ++ ['조'], title, rest.dropWhile pySpace)) ∧
    (∀ ws ds ds2 title rest : List Char, ws.all pySpace = true → ds ≠ [] →
      ds.all Char.isDigit = true → ds2 ≠ [] → ds2.all Char.isDigit = true →
      ')' ∉ title → '\n' ∉ title →
      SourceP.SECTION_REGEX_match
          ('제' :: (ws ++ (ds ++ ('조' :: ('의' :: (ds2 ++ ('(' :: (title ++ (')' :: rest))))))))) =
        some (ds ++ ('조' :: ('의' :: ds2)), title, rest.dropWhile pySpace)) ∧
    (∀ ds title rest : List Char, ds ≠ [] → ds.all Char.isDigit = true →
      ')' ∉ title → '\n' ∉ title →
      SourceMain.section_pattern_match
          ('제' :: (ds ++ ('조' :: ('(' :: (title ++ (')' :: rest)))))) =
        some (ds ++ ['조'], title, ds.length + title.length + 4)) ∧
    (∀ ds ds2 title rest : List Char, ds ≠ [] → ds.all Char.isDigit = true →
      ds2 ≠ [] → ds2.all Char.isDigit = true → ')' ∉ title → '\n' ∉ title →
      SourceMain.section_pattern_match
          ('제' :: (ds ++ ('조' :: ('의' :: (ds2 ++ ('(' :: (title ++ (')' :: rest)))))))) =
        some (ds ++ ('조' :: ('의' :: ds2)), title,
          ds.length + ds2.length + title.length + 5)) :=
  ⟨sectP_nosuffix, sectP_suffix, sectM_nosuffix, sectM_suffix⟩

/-- Witness for C4 (amended) at a concrete header with whitespace and one
sub-numbering suffix. -/
theorem c4_section_header_amended_witness :
    SourceP.SECTION_REGEX_match
        ('제' :: ([' '] ++ (['6'] ++ ('조' :: ('의' :: (['2'] ++
          ('(' :: ("목적".data ++ (')' :: "뒤".data))))))))) =
      some (['6'] ++ ('조' :: ('의' :: ['2'])), "목적".data, "뒤".data.dropWhile pySpace) :=
  c4_section_header_amended.2.1 [' '] ['6'] ['2'] "목적".data "뒤".data
    (by decide) (by decide) (by decide) (by decide) (by decide) (by decide) (by decide)

/-- A dropped line inserted anywhere among the input lines leaves the
filtered line sequence unchanged. -/
theorem clean_insert_dropped (la lb : List (List Char)) (l : List Char)
    (hl : droppedLine l = true) :
    SourceMain.clean_unwanted_lines (la ++ l :: lb) =
      SourceMain.clean_unwanted_lines (la ++ lb) := by
  rw [clean_unwanted_lines_eq_filter, clean_unwanted_lines_eq_filter, List.filter_append,
    List.filter_append, List.filter_cons]
  simp [hl]

/-- C8: `clean_unwanted_lines` is the pure filter that drops a line exactly
when it contains one of the two boilerplate markers or consists solely of
digits after stripping, and keeps all other lines unchanged; consequently a
line equal to `42` never survives filtering, and inserting a `42` line or a
marker-bearing line into the text leaves the parsed output unchanged. -/
theorem c8_noise_filter :
    (∀ ls, SourceMain.clean_unwanted_lines ls = ls.filter (fun l => !droppedLine l)) ∧
    (∀ (la lb : List (List Char)) (l : List Char), droppedLine l = true →
      SourceMain.clean_unwanted_lines (la ++ l :: lb) =
        SourceMain.clean_unwanted_lines (la ++ lb)) ∧
    (∀ ls, ['4', '2'] ∉ SourceMain.clean_unwanted_lines ls) ∧
    (∀ (ta tb : List Char) (doc_id : Nat) (title : List Char), '\n' ∉ ta →
      SourceMain.parse_text_to_structure (ta ++ '\n' :: '4' :: '2' :: '\n' :: tb) doc_id title =
        SourceMain.parse_text_to_structure (ta ++ '\n' :: tb) doc_id title) ∧
    (∀ (ta l tb : List Char) (doc_id : Nat) (title : List Char), '\n' ∉ ta → '\n' ∉ l →
      containsSub SourceMain.marker1 l = true →
      SourceMain.parse_text_to_structure (ta ++ '\n' :: (l ++ '\n' :: tb)) doc_id title =
        SourceMain.parse_text_to_structure (ta ++ '\n' :: tb) doc_id title) := by
  refine ⟨clean_unwanted_lines_eq_filter, clean_insert_dropped, ?_, ?_, ?_⟩
  · intro ls hmem
    rw [clean_unwanted_lines_eq_filter] at hmem
    have := List.of_mem_filter hmem
    simp only [Bool.not_eq_true'] at this
    exact absurd this (by decide)
  · intro ta tb doc_id title hta
    have h1 : splitOnNl (ta ++ '\n' :: '4' :: '2' :: '\n' :: tb) =
        ta :: splitOnNl ('4' :: '2' :: '\n' :: tb) :=
      splitOnNl_append ta ('4' :: '2' :: '\n' :: tb) hta
    have h2 : splitOnNl ('4' :: '2' :: '\n' :: tb) = ['4', '2'] :: splitOnNl tb :=
      splitOnNl_append ['4', '2'] tb (by decide)
    have h3 : splitOnNl (ta ++ '\n' :: tb) = ta :: splitOnNl tb := splitOnNl_append ta tb hta
    have h4 := clean_insert_dropped [ta] (splitOnNl tb) ['4', '2'] (by decide)
    simp only [List.singleton_append] at h4
    simp only [SourceMain.parse_text_to_structure, h1, h2, h3, h4]
  · intro ta l tb doc_id title hta hl hm
    have h1 : splitOnNl (ta ++ '\n' :: (l ++ '\n' :: tb)) =
        ta :: splitOnNl (l ++ '\n' :: tb) :=
      splitOnNl_append ta (l ++ '\n' :: tb) hta
    have h2 : splitOnNl (l ++ '\n' :: tb) = l :: splitOnNl tb := splitOnNl_append l tb hl
    have h3 : splitOnNl (ta ++ '\n' :: tb) = ta :: splitOnNl tb := splitOnNl_append ta tb hta
    have hd : droppedLine l = true := by simp [droppedLine, hm]
    have h4 := clean_insert_dropped [ta] (splitOnNl tb) l hd
    simp only [List.singleton_append] at h4
    simp only [SourceMain.parse_text_to_structure, h1, h2, h3, h4]

/-- Witness for C8 at concrete surrounding lines. -/
theorem c8_noise_filter_witness :
    SourceMain.parse_text_to_structure ('a' :: '\n' :: '4' :: '2' :: '\n' :: ['b']) 1 [] =
      SourceMain.parse_text_to_structure ('a' :: '\n' :: ['b']) 1 [] :=
  c8_noise_filter.2.2.2.1 ['a'] ['b'] 1 [] (by decide)

end X2emb
